import Mathlib

/-!
Shallow embedding of the LLM evaluation-dataset preprocessor component
(`llm_evaluation_preprocessor/component.py`).

The component reads newline-delimited JSON dataset files, normalizes each
record (copying the legacy `input_text` field into the canonical `prompt`
field when the latter is absent), writes normalized copies, and persists a
manifest of the output locations.  File contents, paths and the JSON codec
boundary are modelled explicitly; the Python `json` module's value space is
the inductive `Json` below, and `json.loads` is a parameter of the pipeline
(it is standard-library code external to this repository).  Python
exceptions are the inductive `PErr`; note that `json.JSONDecodeError` is a
subclass of `ValueError` in Python, which `PErr.isValueError` reflects.
-/

/-- JSON-compatible values as produced by Python's `json.loads`:
objects are insertion-ordered association lists (Python dicts preserve
insertion order).  Floating-point numbers are not modelled (no claim
involves them); `num` covers the integral case. -/
inductive Json where
  | null
  | bool (b : Bool)
  | num (n : Int)
  | str (s : String)
  | arr (items : List Json)
  | obj (fields : List (String × Json))
  deriving Repr

/-- Python exceptions relevant to the component.  `decodeError` stands for
`json.JSONDecodeError`, which subclasses `ValueError`. -/
inductive PErr where
  | valueError (msg : String)
  | decodeError (msg : String)
  | typeError
  | attributeError
  deriving DecidableEq, Repr

/-- `isinstance(e, ValueError)` in Python: `json.JSONDecodeError` is a
`ValueError` subclass, so it also answers true. -/
def PErr.isValueError : PErr → Bool
  | .valueError _ => true
  | .decodeError _ => true
  | .typeError => false
  | .attributeError => false

/-- First-match lookup of a key in an association list (Python dict access;
dict keys are unique, so first match is the dict's entry). -/
def lookupKey : List (String × Json) → String → Option Json
  | [], _ => none
  | (k, v) :: rest, key => if k = key then some v else lookupKey rest key

/-- Python substring containment (`sub in s` for strings). -/
def hasSub (sub : List Char) : List Char → Bool
  | [] => sub.isEmpty
  | c :: rest => sub.isPrefixOf (c :: rest) || hasSub sub rest

/-- Decimal digits of a natural number, most significant first
(rendering used by Python for `int`). -/
def natDigits (n : Nat) : List Char :=
  if h : n < 10 then [Char.ofNat (48 + n)]
  else natDigits (n / 10) ++ [Char.ofNat (48 + n % 10)]
  decreasing_by exact Nat.div_lt_self (by omega) (by omega)

/-- Python's decimal rendering of an `int`. -/
def intChars : Int → List Char
  | .ofNat n => natDigits n
  | .negSucc n => '-' :: natDigits (n + 1)

/-- Lower-case hexadecimal digit. -/
def hexDigit (n : Nat) : Char :=
  if n < 10 then Char.ofNat (48 + n) else Char.ofNat (87 + n)

/-- Four lower-case hex digits, as in Python's `\uXXXX` escapes. -/
def hex4 (n : Nat) : List Char :=
  [hexDigit (n / 4096 % 16), hexDigit (n / 256 % 16),
   hexDigit (n / 16 % 16), hexDigit (n % 16)]

/-- Escaping of one character inside a JSON string literal as done by
`json.dumps(..., ensure_ascii=False)`: only `"` , `\` and control
characters below 0x20 are escaped; everything else (including non-ASCII)
is emitted literally. -/
def escapeChar (c : Char) : List Char :=
  if c = '"' then ['\\', '"']
  else if c = '\\' then ['\\', '\\']
  else if c = '\n' then ['\\', 'n']
  else if c = '\t' then ['\\', 't']
  else if c = '\r' then ['\\', 'r']
  else if c.toNat = 8 then ['\\', 'b']
  else if c.toNat = 12 then ['\\', 'f']
  else if c.toNat < 32 then '\\' :: 'u' :: hex4 c.toNat
  else [c]

mutual

/-- `json.dumps(v, ensure_ascii=False)` with the default separators
`', '` and `': '`, as a character list. -/
def dumpsChars : Json → List Char
  | .null => "null".data
  | .bool true => "true".data
  | .bool false => "false".data
  | .num n => intChars n
  | .str s => '"' :: (s.data.map escapeChar).flatten ++ ['"']
  | .arr items => '[' :: dumpsList items ++ [']']
  | .obj fields => '\x7b' :: dumpsObj fields ++ ['\x7d']

/-- Array elements joined by `', '`. -/
def dumpsList : List Json → List Char
  | [] => []
  | [j] => dumpsChars j
  | j :: rest => dumpsChars j ++ ',' :: ' ' :: dumpsList rest

/-- Object entries joined by `', '`, keys in list (= insertion) order. -/
def dumpsObj : List (String × Json) → List Char
  | [] => []
  | [(k, v)] => dumpsKV k v
  | (k, v) :: rest => dumpsKV k v ++ ',' :: ' ' :: dumpsObj rest

/-- One `"key": value` entry. -/
def dumpsKV (k : String) (v : Json) : List Char :=
  '"' :: (k.data.map escapeChar).flatten ++ '"' :: ':' :: ' ' :: dumpsChars v

end

/-- `json.dumps(v, ensure_ascii=False)` as a string. -/
def dumps (j : Json) : String := String.mk (dumpsChars j)

/-- Escaping used by `json.dumps` with the default `ensure_ascii=True`
(the manifest writes): non-ASCII characters become `\uXXXX` escapes,
astral characters a surrogate pair. -/
def escapeCharAscii (c : Char) : List Char :=
  if c.toNat < 128 then escapeChar c
  else if c.toNat < 65536 then '\\' :: 'u' :: hex4 c.toNat
  else
    let n := c.toNat - 65536
    ('\\' :: 'u' :: hex4 (55296 + n / 1024)) ++ '\\' :: 'u' :: hex4 (56320 + n % 1024)

/-- Character lists joined by `', '` (the default item separator). -/
def sepJoin : List (List Char) → List Char
  | [] => []
  | [l] => l
  | l :: rest => l ++ ',' :: ' ' :: sepJoin rest

/-- `json.dumps(entries)` for a Python list of strings — how the Batch
Driver serializes the output manifest. -/
def dumpsManifest (entries : List String) : String :=
  String.mk
    ('[' :: sepJoin (entries.map fun s => '"' :: (s.data.map escapeCharAscii).flatten ++ ['"'])
      ++ [']'])

/-- Python `str.splitlines` restricted to `'\n'` line terminators (the
only terminator the transcoder itself emits; `\r`-style terminators are
not modelled).  A trailing terminator produces no extra empty line and
`''` has no lines. -/
def splitLinesChars : List Char → List (List Char)
  | [] => []
  | '\n' :: rest => [] :: splitLinesChars rest
  | c :: rest =>
    match splitLinesChars rest with
    | [] => [[c]]
    | l :: ls => (c :: l) :: ls

/-- `text.splitlines()` on strings. -/
def pySplitlines (s : String) : List String :=
  (splitLinesChars s.data).map String.mk

/-- Python `s.replace(old, new, 1)`: replace the first occurrence of
`old` in `s` by `new`. -/
def replaceFirstChars (old new : List Char) : List Char → List Char
  | [] => if old.isEmpty then new else []
  | c :: rest =>
    if old.isPrefixOf (c :: rest) then new ++ (c :: rest).drop old.length
    else c :: replaceFirstChars old new rest

/-- `s.replace(old, new, 1)` on strings. -/
def pyReplaceFirst (s old new : String) : String :=
  String.mk (replaceFirstChars old.data new.data s.data)

/-- Whitespace as stripped by Python's `str.strip()` (ASCII subset:
space, tab, newline, carriage return, vertical tab, form feed). -/
def isPySpace (c : Char) : Bool :=
  c = ' ' || c = '\t' || c = '\n' || c = '\r' || c = '\x0b' || c = '\x0c'

/-- Python `line.strip()`: remove leading and trailing whitespace. -/
def pyStrip (s : String) : String :=
  String.mk (((s.data.dropWhile isPySpace).reverse.dropWhile isPySpace).reverse)

/-- Split on `'/'`, keeping empty components (Python `p.split('/')`);
the result is never empty. -/
def splitSlashChars : List Char → List (List Char)
  | [] => [[]]
  | '/' :: rest => [] :: splitSlashChars rest
  | c :: rest =>
    match splitSlashChars rest with
    | [] => [[c]]
    | l :: ls => (c :: l) :: ls

/-- Components re-joined with `'/'`. -/
def joinSlash : List (List Char) → List Char
  | [] => []
  | [l] => l
  | l :: rest => l ++ '/' :: joinSlash rest

/-- `epath.Path(p).name`: the final path component (paths here never end
in a slash). -/
def pathName (p : String) : String :=
  String.mk ((splitSlashChars p.data).getLastD [])

/-- `epath.Path(p).parent`: the path with its final component removed. -/
def pathParent (p : String) : String :=
  String.mk (joinSlash (splitSlashChars p.data).dropLast)

/-- `output_path.parent / input_path.name`: where the transcoded copy of
the input file named by `uri` is written. -/
def derivedOutputPath (output_path uri : String) : String :=
  pathParent output_path ++ "/" ++ pathName uri

/-- The manifest entry recorded for an output file:
`str(output_file_path).replace('/gcs/', 'gs://', 1)`. -/
def entryFor (output_path uri : String) : String :=
  pyReplaceFirst (derivedOutputPath output_path uri) "/gcs/" "gs://"

/-- The `ValueError` message raised when a dataset file produced zero
records; it embeds the offending dataset URI. -/
def zeroRecordMsg (dataset_file_uri : String) : String :=
  "Dataset is inaccessible or contains no valid entries. Please ensure"
    ++ " your pipeline can access the dataset and that it is properly"
    ++ " formatted. Dataset URI: " ++ dataset_file_uri

/-- Effectful map over `Except`: apply `f` left to right, stopping at the
first error (Python loop semantics). -/
def mapExcept (f : α → Except PErr β) : List α → Except PErr (List β)
  | [] => .ok []
  | a :: as =>
    match f a with
    | .error e => .error e
    | .ok b =>
      match mapExcept f as with
      | .error e => .error e
      | .ok bs => .ok (b :: bs)

/-- Python iteration over a JSON value (the value of the `data` field):
lists yield their elements, strings their characters, dicts their keys;
other values are not iterable (`TypeError`). -/
def pyIter : Json → Except PErr (List Json)
  | .arr l => .ok l
  | .str s => .ok (s.data.map fun c => Json.str (String.mk [c]))
  | .obj f => .ok (f.map fun p => Json.str p.1)
  | _ => .error .typeError

/-- `json_instance.get('data', [json_instance])` followed by iteration:
the Raw Records contributed by one decoded line.  A non-dict decoded
value has no `.get` method (`AttributeError`). -/
def iterTargets : Json → Except PErr (List Json)
  | .obj fields =>
    match lookupKey fields "data" with
    | some v => pyIter v
    | none => .ok [.obj fields]
  | _ => .error .attributeError

/-- Python `s == e` between a `str` and an arbitrary JSON value: true only
for an equal string. -/
def pyEqStr (s : String) : Json → Bool
  | .str t => s = t
  | _ => false

/-- The Record Normalizer, i.e. the body of the `for data_obj in ...`
loop before serialization:
`if 'prompt' not in data_obj and 'input_text' in data_obj:`
`    data_obj['prompt'] = data_obj['input_text']`.
On a dict, membership tests keys and the assignment appends the new key
at the end (insertion order); on a `str`, `in` is substring containment
but the subscripts raise `TypeError`; on a list, `in` is element
membership but the subscripts raise `TypeError`; other values are not
containers at all (`TypeError` from `in`). -/
def normalizeRecord : Json → Except PErr Json
  | .obj fields =>
    if (lookupKey fields "prompt").isNone ∧ (lookupKey fields "input_text").isSome then
      .ok (.obj (fields ++ [("prompt", (lookupKey fields "input_text").getD .null)]))
    else
      .ok (.obj fields)
  | .str s =>
    if ¬ hasSub "prompt".data s.data ∧ hasSub "input_text".data s.data then .error .typeError
    else .ok (.str s)
  | .arr l =>
    if ¬ l.any (pyEqStr "prompt") ∧ l.any (pyEqStr "input_text") then .error .typeError
    else .ok (.arr l)
  | j => match j with
    | .null | .bool _ | .num _ => .error .typeError
    | _ => .error .typeError

/-- The normalized records contributed by one decoded line: expand via the
aggregation field, then normalize each Raw Record in order. -/
def lineRecordsOf (j : Json) : Except PErr (List Json) :=
  match iterTargets j with
  | .error e => .error e
  | .ok ts => mapExcept normalizeRecord ts

/-- Processing of one raw line of the input file: strip, skip if blank,
otherwise decode via `loads` (a decode failure is `json.JSONDecodeError`)
and expand/normalize. -/
def processLine (loads : String → Except String Json) (line : String) :
    Except PErr (List Json) :=
  let stripped := pyStrip line
  if stripped = "" then .ok []
  else
    match loads stripped with
    | .error msg => .error (.decodeError msg)
    | .ok j => lineRecordsOf j

/-- All normalized records of one input file, in line order. -/
def fileRecords (loads : String → Except String Json) (text : String) :
    Except PErr (List Json) :=
  match mapExcept (processLine loads) (pySplitlines text) with
  | .error e => .error e
  | .ok ls => .ok ls.flatten

/-- The accumulated output body: each record serialized followed by one
`'\n'`. -/
def fileContent (rs : List Json) : String :=
  String.join (rs.map fun r => dumps r ++ "\n")

/-- The File Transcoder `preprocess_file`, for an input file with contents
`text`.  Returns the writes performed (path, contents) and either the
error raised or the manifest entry appended to `output_dirs`.  The output
file is written *before* the zero-record check, so a zero-record file
still gets an empty output file; a decode (or other) error earlier in the
loop prevents the write. -/
def preprocess_file (loads : String → Except String Json)
    (dataset_file_uri output_path text : String) :
    List (String × String) × Except PErr String :=
  let output_file_path := derivedOutputPath output_path dataset_file_uri
  match fileRecords loads text with
  | .error e => ([], .error e)
  | .ok rs =>
    if rs.length = 0 then
      ([(output_file_path, fileContent rs)],
       .error (.valueError (zeroRecordMsg dataset_file_uri)))
    else
      ([(output_file_path, fileContent rs)],
       .ok (entryFor output_path dataset_file_uri))

/-- The `for gcs_source_uri in gcs_source_uris:` loop: process each source
in order, accumulating file writes and manifest entries (`output_dirs`);
stop at the first error.  `fs` gives each source file's contents (the
object-store read boundary). -/
def processAll (loads : String → Except String Json) (fs : String → String)
    (output_path : String) : List String → List (String × String) × Except PErr (List String)
  | [] => ([], .ok [])
  | uri :: rest =>
    let (w, r) := preprocess_file loads uri output_path (fs uri)
    match r with
    | .error e => (w, .error e)
    | .ok entry =>
      let (ws, res) := processAll loads fs output_path rest
      (w ++ ws,
       match res with
       | .error e => .error e
       | .ok entries => .ok (entry :: entries))

/-- How `evaluation_dataset_preprocessor` terminates: normally, by an
exception reaching the caller (the re-`raise` of a `ValueError`), or via
`sys.exit`. -/
inductive Outcome where
  | success
  | raised (e : PErr)
  | exit (code : Nat)
  deriving DecidableEq, Repr

/-- Observable result of one invocation of the component: the transcoded
file writes, the successive contents written at the manifest path
(`output_dirs`), and the termination behavior. -/
structure BatchResult where
  fileWrites : List (String × String)
  manifestWrites : List String
  outcome : Outcome
  deriving DecidableEq, Repr

/-- The Batch Driver `evaluation_dataset_preprocessor`: fast-path manifest
write for an empty source list, the processing loop, the final manifest
write, and the outer `except Exception` handler, which re-raises
`ValueError`s (including `json.JSONDecodeError`) and converts everything
else to `sys.exit(13)` after logging. -/
def runBatch (loads : String → Except String Json) (gcs_source_uris : List String)
    (fs : String → String) (output_path : String) : BatchResult :=
  let fastWrites : List String :=
    if gcs_source_uris.isEmpty then [dumpsManifest []] else []
  let (ws, res) := processAll loads fs output_path gcs_source_uris
  match res with
  | .ok entries => ⟨ws, fastWrites ++ [dumpsManifest entries], .success⟩
  | .error e =>
    if e.isValueError then ⟨ws, fastWrites, .raised e⟩
    else ⟨ws, fastWrites, .exit 13⟩

/-- An input source the File Transcoder accepts: it decodes fully and
yields at least one record. -/
def fileOk (loads : String → Except String Json) (fs : String → String) (uri : String) : Prop :=
  ∃ rs, fileRecords loads (fs uri) = .ok rs ∧ rs ≠ []

/-- A concrete stand-in for `json.loads` used for concrete evaluations:
it decodes the fixed text `A` to a legacy-field record and rejects
everything else with the message CPython's decoder gives for junk at
position 0. -/
def loadsDemo : String → Except String Json := fun s =>
  if s = "A" then .ok (.obj [("input_text", .str "hello")])
  else .error "Expecting value: line 1 column 1 (char 0)"

/-! ### Helper lemmas -/

theorem lookupKey_append_some {f : List (String × Json)} {k : String} {v : Json}
    (h : lookupKey f k = some v) (g : List (String × Json)) :
    lookupKey (f ++ g) k = some v := by
  induction f with
  | nil => simp [lookupKey] at h
  | cons p rest ih =>
    obtain ⟨a, b⟩ := p
    simp only [lookupKey, List.cons_append] at h ⊢
    by_cases hk : a = k
    · rwa [if_pos hk] at h ⊢
    · rw [if_neg hk] at h ⊢
      exact ih h

theorem lookupKey_append_none {f : List (String × Json)} {k : String}
    (h : lookupKey f k = none) (g : List (String × Json)) :
    lookupKey (f ++ g) k = lookupKey g k := by
  induction f with
  | nil => simp
  | cons p rest ih =>
    obtain ⟨a, b⟩ := p
    simp only [lookupKey, List.cons_append] at h ⊢
    by_cases hk : a = k
    · rw [if_pos hk] at h
      exact absurd h (by simp)
    · rw [if_neg hk] at h ⊢
      exact ih h

/-! ### Claim theorems -/

/-- C4 (confirmed): for a raw record that is a mapping, if `prompt` is
absent and `input_text` present with value `v`, normalization appends
`("prompt", v)` (so `prompt = v` afterwards) and leaves `input_text`
unchanged; if neither condition pattern holds — `prompt` already present,
or `input_text` absent — the record is returned unchanged, so an existing
`prompt` value is never overwritten. -/
theorem normalize_promotion (fields : List (String × Json)) :
    (∀ v, lookupKey fields "prompt" = none → lookupKey fields "input_text" = some v →
      normalizeRecord (Json.obj fields) = .ok (.obj (fields ++ [("prompt", v)])) ∧
      lookupKey (fields ++ [("prompt", v)]) "input_text" = some v ∧
      lookupKey (fields ++ [("prompt", v)]) "prompt" = some v) ∧
    (lookupKey fields "input_text" = none →
      normalizeRecord (Json.obj fields) = .ok (.obj fields)) ∧
    (∀ p, lookupKey fields "prompt" = some p →
      normalizeRecord (Json.obj fields) = .ok (.obj fields)) := by
  refine ⟨?_, ?_, ?_⟩
  · intro v hp hi
    refine ⟨?_, ?_, ?_⟩
    · simp [normalizeRecord, hp, hi]
    · exact lookupKey_append_some hi _
    · rw [lookupKey_append_none hp]
      simp [lookupKey]
  · intro hi
    simp [normalizeRecord, hi]
  · intro p hp
    simp [normalizeRecord, hp]

/-- C4 witness. -/
theorem normalize_promotion_w :
    normalizeRecord (Json.obj [("input_text", .str "hello")]) =
      .ok (.obj [("input_text", .str "hello"), ("prompt", .str "hello")]) ∧
    normalizeRecord (Json.obj [("prompt", .str "hi"), ("input_text", .str "hello")]) =
      .ok (.obj [("prompt", .str "hi"), ("input_text", .str "hello")]) :=
  ⟨((normalize_promotion [("input_text", .str "hello")]).1 (.str "hello") rfl rfl).1,
   (normalize_promotion [("prompt", .str "hi"), ("input_text", .str "hello")]).2.2
     (.str "hi") rfl⟩

/-- C10 (confirmed): the Record Normalizer is idempotent on mappings —
normalizing an already-normalized record changes nothing, because after
one application `prompt` is present whenever `input_text` is. -/
theorem normalize_idempotent (fields : List (String × Json)) :
    (normalizeRecord (Json.obj fields)).bind normalizeRecord =
      normalizeRecord (Json.obj fields) := by
  by_cases hp : (lookupKey fields "prompt").isNone ∧ (lookupKey fields "input_text").isSome
  · obtain ⟨hp1, hp2⟩ := hp
    rw [Option.isNone_iff_eq_none] at hp1
    obtain ⟨v, hv⟩ := Option.isSome_iff_exists.mp hp2
    have h1 : normalizeRecord (Json.obj fields) =
        .ok (.obj (fields ++ [("prompt", v)])) := by
      simp [normalizeRecord, hp1, hv]
    rw [h1]
    have h2 : lookupKey (fields ++ [("prompt", v)]) "prompt" = some v := by
      rw [lookupKey_append_none hp1]; simp [lookupKey]
    simp [Except.bind, normalizeRecord, h2]
  · have h1 : normalizeRecord (Json.obj fields) = .ok (.obj fields) := by
      simp only [normalizeRecord, if_neg hp]
    rw [h1]
    simp [Except.bind, h1]

/-- C7 (confirmed): with an empty source list the batch succeeds, the
manifest path receives the JSON empty array `[]` (twice: the fast path
and the unconditional final write; the persisted content is `[]`), and no
output files are written. -/
theorem empty_sources_fast_path (loads : String → Except String Json)
    (fs : String → String) (output_path : String) :
    runBatch loads [] fs output_path =
      ⟨[], [dumpsManifest [], dumpsManifest []], .success⟩ ∧
    dumpsManifest [] = "[]" :=
  ⟨rfl, rfl⟩

theorem mapExcept_ok_get {α β : Type} {f : α → Except PErr β} :
    ∀ {l : List α} {bs : List β}, mapExcept f l = .ok bs →
      bs.length = l.length ∧
      ∀ i (h1 : i < l.length) (h2 : i < bs.length),
        f (l.get ⟨i, h1⟩) = .ok (bs.get ⟨i, h2⟩) := by
  intro l
  induction l with
  | nil =>
    intro bs h
    obtain rfl : ([] : List β) = bs := by simpa [mapExcept] using h
    exact ⟨rfl, fun i h1 _ => by simp at h1⟩
  | cons a as ih =>
    intro bs h
    simp only [mapExcept] at h
    cases hfa : f a with
    | error e => rw [hfa] at h; simp at h
    | ok b =>
      rw [hfa] at h
      cases hrest : mapExcept f as with
      | error e => rw [hrest] at h; simp at h
      | ok bs' =>
        rw [hrest] at h
        obtain rfl : b :: bs' = bs := by simpa using h
        obtain ⟨hlen, hget⟩ := ih hrest
        refine ⟨by simp [hlen], ?_⟩
        intro i h1 h2
        cases i with
        | zero => simpa using hfa
        | succ n => exact hget n (by simpa using h1) (by simpa [← hlen] using h2)

/-- C5 (confirmed): a decoded line that is a mapping whose `data` field
holds a list is expanded into that list's elements as independent Raw
Records — each normalized independently, in list order (the i-th output
record is the normalization of the i-th list element), and each counted
(the record count contribution equals the list length); a decoded mapping
without the `data` field is processed as the single Raw Record itself. -/
theorem aggregation_expansion :
    (∀ (fields : List (String × Json)) (l rs : List Json),
      lookupKey fields "data" = some (Json.arr l) →
      lineRecordsOf (Json.obj fields) = mapExcept normalizeRecord l ∧
      (lineRecordsOf (Json.obj fields) = .ok rs →
        rs.length = l.length ∧
        ∀ i (h1 : i < l.length) (h2 : i < rs.length),
          normalizeRecord (l.get ⟨i, h1⟩) = .ok (rs.get ⟨i, h2⟩))) ∧
    (∀ fields : List (String × Json), lookupKey fields "data" = none →
      lineRecordsOf (Json.obj fields) =
        (normalizeRecord (Json.obj fields)).map fun r => [r]) := by
  constructor
  · intro fields l rs h
    have heq : lineRecordsOf (Json.obj fields) = mapExcept normalizeRecord l := by
      simp [lineRecordsOf, iterTargets, h, pyIter]
    refine ⟨heq, fun hok => ?_⟩
    rw [heq] at hok
    exact mapExcept_ok_get hok
  · intro fields h
    cases hn : normalizeRecord (Json.obj fields) with
    | error e => simp [lineRecordsOf, iterTargets, h, mapExcept, hn, Except.map]
    | ok r => simp [lineRecordsOf, iterTargets, h, mapExcept, hn, Except.map]

/-- C5 witness. -/
theorem aggregation_expansion_w :
    lineRecordsOf (Json.obj [("data", Json.arr
        [Json.obj [("input_text", Json.str "a")], Json.obj [("prompt", Json.str "b")]])]) =
      mapExcept normalizeRecord
        [Json.obj [("input_text", Json.str "a")], Json.obj [("prompt", Json.str "b")]] ∧
    lineRecordsOf (Json.obj [("input_text", Json.str "a")]) =
      (normalizeRecord (Json.obj [("input_text", Json.str "a")])).map fun r => [r] :=
  ⟨(aggregation_expansion.1
      [("data", Json.arr
        [Json.obj [("input_text", Json.str "a")], Json.obj [("prompt", Json.str "b")]])]
      [Json.obj [("input_text", Json.str "a")], Json.obj [("prompt", Json.str "b")]]
      [] rfl).1,
   aggregation_expansion.2 [("input_text", Json.str "a")] rfl⟩

theorem preprocess_ok_entry {loads : String → Except String Json}
    {uri out text s : String}
    (h : (preprocess_file loads uri out text).2 = .ok s) : s = entryFor out uri := by
  unfold preprocess_file at h
  cases hf : fileRecords loads text with
  | error e => rw [hf] at h; simp at h
  | ok rs =>
    rw [hf] at h
    dsimp only at h
    by_cases h0 : rs.length = 0
    · rw [if_pos h0] at h; simp at h
    · rw [if_neg h0] at h
      simpa using h.symm

theorem preprocess_of_records {loads : String → Except String Json}
    {uri out text : String} {rs : List Json}
    (h : fileRecords loads text = .ok rs) (hne : rs ≠ []) :
    preprocess_file loads uri out text =
      ([(derivedOutputPath out uri, fileContent rs)], .ok (entryFor out uri)) := by
  have h0 : rs.length ≠ 0 := by simpa [List.length_eq_zero] using hne
  simp [preprocess_file, h, h0]

theorem preprocess_zero_records {loads : String → Except String Json}
    {uri out text : String} (h : fileRecords loads text = .ok []) :
    preprocess_file loads uri out text =
      ([(derivedOutputPath out uri, fileContent [])],
       .error (.valueError (zeroRecordMsg uri))) := by
  simp [preprocess_file, h]

theorem runBatch_outcome (loads : String → Except String Json)
    (uris : List String) (fs : String → String) (out : String) :
    (runBatch loads uris fs out).outcome =
      match (processAll loads fs out uris).2 with
      | .ok _ => .success
      | .error e => if e.isValueError then .raised e else .exit 13 := by
  unfold runBatch
  rcases h : processAll loads fs out uris with ⟨ws, res⟩
  cases res with
  | ok entries => simp
  | error e =>
    by_cases hv : e.isValueError <;> simp [hv]

theorem runBatch_manifestWrites (loads : String → Except String Json)
    (uris : List String) (fs : String → String) (out : String) :
    (runBatch loads uris fs out).manifestWrites =
      (if uris.isEmpty then [dumpsManifest []] else []) ++
      (match (processAll loads fs out uris).2 with
       | .ok entries => [dumpsManifest entries]
       | .error _ => []) := by
  unfold runBatch
  rcases h : processAll loads fs out uris with ⟨ws, res⟩
  cases res with
  | ok entries => simp
  | error e =>
    by_cases hv : e.isValueError <;> simp [hv]

theorem processAll_ok_entries {loads : String → Except String Json}
    {fs : String → String} {out : String} :
    ∀ {uris : List String} {ws : List (String × String)} {entries : List String},
      processAll loads fs out uris = (ws, .ok entries) →
      entries = uris.map (entryFor out) := by
  intro uris
  induction uris with
  | nil =>
    intro ws entries h
    simp only [processAll] at h
    simpa using (congrArg Prod.snd h).symm
  | cons u rest ih =>
    intro ws entries h
    simp only [processAll] at h
    rcases hp : preprocess_file loads u out (fs u) with ⟨w, r⟩
    rw [hp] at h
    cases r with
    | error e => simp at h
    | ok entry =>
      have hentry : entry = entryFor out u :=
        preprocess_ok_entry (by rw [hp])
      rcases hrest : processAll loads fs out rest with ⟨ws', res'⟩
      rw [hrest] at h
      cases res' with
      | error e => simp at h
      | ok entries' =>
        have h2 : entry :: entries' = entries := by
          simpa using congrArg Prod.snd h
        rw [← h2, hentry, ih hrest]
        simp

theorem processAll_prefix_ok {loads : String → Except String Json}
    {fs : String → String} {out : String} :
    ∀ {pre : List String}, (∀ v ∈ pre, fileOk loads fs v) →
      ∀ rest : List String,
        (processAll loads fs out (pre ++ rest)).2 =
          match (processAll loads fs out rest).2 with
          | .error e => .error e
          | .ok entries => .ok (pre.map (entryFor out) ++ entries) := by
  intro pre
  induction pre with
  | nil =>
    intro _ rest
    cases h : (processAll loads fs out rest).2 with
    | error e => simp [h]
    | ok entries => simp [h]
  | cons v pre' ih =>
    intro hok rest
    obtain ⟨rs, hrs, hne⟩ := hok v (by simp)
    have hpre' : ∀ w ∈ pre', fileOk loads fs w := fun w hw => hok w (by simp [hw])
    have hv := @preprocess_of_records loads v out (fs v) rs hrs hne
    simp only [List.cons_append, processAll, hv]
    rcases hr : processAll loads fs out (pre' ++ rest) with ⟨ws', res'⟩
    have := ih hpre' rest
    rw [hr] at this
    simp only at this
    rw [this]
    cases h : (processAll loads fs out rest).2 with
    | error e => simp [h]
    | ok entries => simp [h]

/-- C1 counterexample: a source file whose single non-blank line fails to
parse as JSON makes the batch re-raise the `json.JSONDecodeError` (a
`ValueError` subclass caught by `isinstance(e, ValueError)`), so the run
does *not* terminate through the internal-error exit path with code 13. -/
theorem decode_error_not_exit13_cex :
    runBatch loadsDemo ["gs://bucket/data.jsonl"] (fun _ => "not json")
        "/gcs/bucket/out/output_dirs" =
      ⟨[], [], .raised (.decodeError "Expecting value: line 1 column 1 (char 0)")⟩ ∧
    Outcome.raised (.decodeError "Expecting value: line 1 column 1 (char 0)") ≠
      .exit 13 :=
  ⟨rfl, by decide⟩

/-- C1 amended (proved): whenever processing the sources stops with a
JSON decode error, the batch ends through the validation-error
propagation channel — the `json.JSONDecodeError`, being a `ValueError`
subclass, is re-raised by the outer handler — and never through the
internal-error exit with status code 13. -/
theorem decode_error_propagates (loads : String → Except String Json)
    (uris : List String) (fs : String → String) (out : String)
    (ws : List (String × String)) (m : String)
    (h : processAll loads fs out uris = (ws, .error (.decodeError m))) :
    (runBatch loads uris fs out).outcome = .raised (.decodeError m) ∧
    (runBatch loads uris fs out).outcome ≠ .exit 13 := by
  have hsnd : (processAll loads fs out uris).2 = .error (.decodeError m) := by
    rw [h]
  have ho := runBatch_outcome loads uris fs out
  rw [hsnd] at ho
  simp only [PErr.isValueError, if_pos] at ho
  exact ⟨ho, by simp [ho]⟩

/-- C1 amended, witness. -/
theorem decode_error_propagates_w :
    (runBatch loadsDemo ["gs://bucket/data.jsonl"] (fun _ => "not json")
        "/gcs/bucket/out/output_dirs").outcome =
      .raised (.decodeError "Expecting value: line 1 column 1 (char 0)") ∧
    (runBatch loadsDemo ["gs://bucket/data.jsonl"] (fun _ => "not json")
        "/gcs/bucket/out/output_dirs").outcome ≠ .exit 13 :=
  decode_error_propagates loadsDemo ["gs://bucket/data.jsonl"] (fun _ => "not json")
    "/gcs/bucket/out/output_dirs" []
    "Expecting value: line 1 column 1 (char 0)" rfl

/-- C2 counterexample: an empty input file yields zero records, yet the
File Transcoder still writes an (empty) output file at the derived output
path before raising the zero-record `ValueError` — refuting "an output
file is produced iff the input yielded at least one record". -/
theorem empty_input_write_cex :
    fileRecords loadsDemo "" = .ok [] ∧
    (preprocess_file loadsDemo "gs://bucket/data.jsonl" "/gcs/bucket/out/output_dirs"
        "").1 =
      [("/gcs/bucket/out/data.jsonl", "")] ∧
    (preprocess_file loadsDemo "gs://bucket/data.jsonl" "/gcs/bucket/out/output_dirs"
        "").1 ≠ [] :=
  ⟨rfl, rfl, by decide⟩

/-- C2 amended (proved): the output file at the derived output path is
written if and only if every non-blank line of the input decodes
successfully — in particular an empty or fully-blank input file gets an
*empty* output file written before the zero-record validation error — and
it is the *manifest entry* that is produced iff the file yielded at least
one Normalized Record. -/
theorem output_write_characterization (loads : String → Except String Json)
    (uri out text : String) :
    (∀ e, fileRecords loads text = .error e →
      (preprocess_file loads uri out text).1 = []) ∧
    (∀ rs, fileRecords loads text = .ok rs →
      (preprocess_file loads uri out text).1 =
        [(derivedOutputPath out uri, fileContent rs)] ∧
      ((preprocess_file loads uri out text).2 = .ok (entryFor out uri) ↔ rs ≠ [])) := by
  constructor
  · intro e he
    simp [preprocess_file, he]
  · intro rs hrs
    by_cases h0 : rs = []
    · subst h0
      rw [preprocess_zero_records hrs]
      simp
    · rw [preprocess_of_records hrs h0]
      simp [h0]

/-- C2 amended, witness. -/
theorem output_write_characterization_w :
    fileRecords loadsDemo "x" =
      .error (.decodeError "Expecting value: line 1 column 1 (char 0)") ∧
    (preprocess_file loadsDemo "gs://bucket/data.jsonl" "/gcs/bucket/out/output_dirs"
        "x").1 = [] ∧
    fileRecords loadsDemo "A" =
      .ok [Json.obj [("input_text", Json.str "hello"), ("prompt", Json.str "hello")]] ∧
    (preprocess_file loadsDemo "gs://bucket/data.jsonl" "/gcs/bucket/out/output_dirs"
        "A").1 =
      [(derivedOutputPath "/gcs/bucket/out/output_dirs" "gs://bucket/data.jsonl",
        fileContent
          [Json.obj [("input_text", Json.str "hello"), ("prompt", Json.str "hello")]])] ∧
    ((preprocess_file loadsDemo "gs://bucket/data.jsonl" "/gcs/bucket/out/output_dirs"
        "A").2 =
      .ok (entryFor "/gcs/bucket/out/output_dirs" "gs://bucket/data.jsonl") ↔
      ([Json.obj [("input_text", Json.str "hello"), ("prompt", Json.str "hello")]] :
        List Json) ≠ []) :=
  ⟨rfl,
   (output_write_characterization loadsDemo "gs://bucket/data.jsonl"
      "/gcs/bucket/out/output_dirs" "x").1 _ rfl,
   rfl,
   ((output_write_characterization loadsDemo "gs://bucket/data.jsonl"
      "/gcs/bucket/out/output_dirs" "A").2 _ rfl).1,
   ((output_write_characterization loadsDemo "gs://bucket/data.jsonl"
      "/gcs/bucket/out/output_dirs" "A").2 _ rfl).2⟩

/-- C3 (confirmed): when a reachable source file (all sources before it
processed successfully) yields zero records — empty file, all-blank
lines, or decoded lines with empty aggregation lists — the File
Transcoder raises a `ValueError` whose message embeds that Dataset Source
Reference, and the Batch Driver's handler re-raises it unmodified (the
run never converts it to the internal `sys.exit(13)` path). -/
theorem zero_record_validation_error (loads : String → Except String Json)
    (fs : String → String) (out : String) (pre : List String) (u : String)
    (post : List String)
    (hpre : ∀ v ∈ pre, fileOk loads fs v)
    (hu : fileRecords loads (fs u) = .ok []) :
    (runBatch loads (pre ++ u :: post) fs out).outcome =
      .raised (.valueError (zeroRecordMsg u)) ∧
    (∃ a, zeroRecordMsg u = a ++ u) ∧
    (runBatch loads (pre ++ u :: post) fs out).outcome ≠ .exit 13 := by
  have hcons : (processAll loads fs out (u :: post)).2 =
      .error (.valueError (zeroRecordMsg u)) := by
    simp only [processAll, @preprocess_zero_records loads u out (fs u) hu]
  have hall := @processAll_prefix_ok loads fs out pre hpre (u :: post)
  rw [hcons] at hall
  simp only at hall
  have ho := runBatch_outcome loads (pre ++ u :: post) fs out
  rw [hall] at ho
  simp only [PErr.isValueError, if_pos] at ho
  refine ⟨ho, ⟨?_, ?_⟩, by simp [ho]⟩
  · exact "Dataset is inaccessible or contains no valid entries. Please ensure"
      ++ " your pipeline can access the dataset and that it is properly"
      ++ " formatted. Dataset URI: "
  · simp [zeroRecordMsg, String.append_assoc]

/-- C3 witness. -/
theorem zero_record_validation_error_w :
    (runBatch loadsDemo (["gs://bucket/a.jsonl"] ++ "gs://bucket/empty.jsonl" :: [])
        (fun u => if u = "gs://bucket/a.jsonl" then "A" else "")
        "/gcs/bucket/out/output_dirs").outcome =
      .raised (.valueError (zeroRecordMsg "gs://bucket/empty.jsonl")) ∧
    (∃ a, zeroRecordMsg "gs://bucket/empty.jsonl" = a ++ "gs://bucket/empty.jsonl") ∧
    (runBatch loadsDemo (["gs://bucket/a.jsonl"] ++ "gs://bucket/empty.jsonl" :: [])
        (fun u => if u = "gs://bucket/a.jsonl" then "A" else "")
        "/gcs/bucket/out/output_dirs").outcome ≠ .exit 13 :=
  zero_record_validation_error loadsDemo
    (fun u => if u = "gs://bucket/a.jsonl" then "A" else "")
    "/gcs/bucket/out/output_dirs" ["gs://bucket/a.jsonl"] "gs://bucket/empty.jsonl" []
    (by
      intro v hv
      simp only [List.mem_singleton] at hv
      subst hv
      exact ⟨[Json.obj [("input_text", Json.str "hello"), ("prompt", Json.str "hello")]],
        rfl, by simp⟩)
    rfl

/-- C6 (confirmed): with a non-empty source list, if processing any file
raises an error — the zero-record `ValueError` or anything else — nothing
is ever written at the designated manifest location and the batch does
not succeed; conversely the manifest location is written (exactly once,
as the JSON array of the collected entries) precisely when every source
was processed successfully. -/
theorem manifest_only_on_success (loads : String → Except String Json)
    (uris : List String) (fs : String → String) (out : String) (hne : uris ≠ []) :
    ((runBatch loads uris fs out).manifestWrites ≠ [] ↔
      ∃ entries, (processAll loads fs out uris).2 = .ok entries) ∧
    (∀ e, (processAll loads fs out uris).2 = .error e →
      (runBatch loads uris fs out).manifestWrites = [] ∧
      (runBatch loads uris fs out).outcome ≠ .success) ∧
    (∀ entries, (processAll loads fs out uris).2 = .ok entries →
      (runBatch loads uris fs out).manifestWrites = [dumpsManifest entries]) := by
  have hempty : uris.isEmpty = false := by
    cases uris with
    | nil => exact absurd rfl hne
    | cons a as => rfl
  have hm := runBatch_manifestWrites loads uris fs out
  have ho := runBatch_outcome loads uris fs out
  rw [hempty] at hm
  simp only [if_neg Bool.false_ne_true, List.nil_append] at hm
  cases hres : (processAll loads fs out uris).2 with
  | error e =>
    rw [hres] at hm ho
    refine ⟨?_, ?_, ?_⟩
    · simp only [hm]
      constructor
      · intro hfalse; exact absurd rfl hfalse
      · rintro ⟨entries, hentries⟩; simp at hentries
    · intro e' _
      refine ⟨hm, ?_⟩
      rw [ho]
      by_cases hv : e.isValueError <;> simp [hv]
    · intro entries hentries
      simp at hentries
  | ok entries =>
    rw [hres] at hm
    refine ⟨?_, ?_, ?_⟩
    · simp only [hm]
      exact ⟨fun _ => ⟨entries, rfl⟩, fun _ => by simp⟩
    · intro e' he'; simp at he'
    · intro entries' hentries'
      obtain rfl : entries = entries' := by simpa using hentries'
      exact hm

/-- C6 witness. -/
theorem manifest_only_on_success_w :
    ((runBatch loadsDemo ["gs://b/f1.jsonl"] (fun _ => "A")
        "/gcs/b/out/output_dirs").manifestWrites ≠ [] ↔
      ∃ entries, (processAll loadsDemo (fun _ => "A") "/gcs/b/out/output_dirs"
        ["gs://b/f1.jsonl"]).2 = .ok entries) ∧
    (∀ e, (processAll loadsDemo (fun _ => "A") "/gcs/b/out/output_dirs"
        ["gs://b/f1.jsonl"]).2 = .error e →
      (runBatch loadsDemo ["gs://b/f1.jsonl"] (fun _ => "A")
        "/gcs/b/out/output_dirs").manifestWrites = [] ∧
      (runBatch loadsDemo ["gs://b/f1.jsonl"] (fun _ => "A")
        "/gcs/b/out/output_dirs").outcome ≠ .success) ∧
    (∀ entries, (processAll loadsDemo (fun _ => "A") "/gcs/b/out/output_dirs"
        ["gs://b/f1.jsonl"]).2 = .ok entries →
      (runBatch loadsDemo ["gs://b/f1.jsonl"] (fun _ => "A")
        "/gcs/b/out/output_dirs").manifestWrites = [dumpsManifest entries]) :=
  manifest_only_on_success loadsDemo ["gs://b/f1.jsonl"] (fun _ => "A")
    "/gcs/b/out/output_dirs" (by simp)

/-- C8 (confirmed): whenever the batch completes (the processing loop
returns entries), the manifest has at most one entry per input file — in
fact exactly one, in the same relative order: the entry list is the map
of the entry-derivation over the input list in input order. -/
theorem manifest_order_length (loads : String → Except String Json)
    (uris : List String) (fs : String → String) (out : String)
    (ws : List (String × String)) (entries : List String)
    (h : processAll loads fs out uris = (ws, .ok entries)) :
    entries.length ≤ uris.length ∧
    entries = uris.map (entryFor out) := by
  have he := processAll_ok_entries h
  exact ⟨by simp [he], he⟩

/-- C8 witness. -/
theorem manifest_order_length_w :
    processAll loadsDemo (fun _ => "A") "/gcs/b/out/output_dirs"
        ["gs://b/f1.jsonl", "gs://b/f2.jsonl"] =
      ([("/gcs/b/out/f1.jsonl",
          fileContent
            [Json.obj [("input_text", Json.str "hello"), ("prompt", Json.str "hello")]]),
        ("/gcs/b/out/f2.jsonl",
          fileContent
            [Json.obj [("input_text", Json.str "hello"), ("prompt", Json.str "hello")]])],
       .ok ["gs://b/out/f1.jsonl", "gs://b/out/f2.jsonl"]) ∧
    (["gs://b/out/f1.jsonl", "gs://b/out/f2.jsonl"] : List String).length ≤
      (["gs://b/f1.jsonl", "gs://b/f2.jsonl"] : List String).length ∧
    ["gs://b/out/f1.jsonl", "gs://b/out/f2.jsonl"] =
      ["gs://b/f1.jsonl", "gs://b/f2.jsonl"].map (entryFor "/gcs/b/out/output_dirs") :=
  ⟨rfl,
   (manifest_order_length loadsDemo ["gs://b/f1.jsonl", "gs://b/f2.jsonl"] (fun _ => "A")
      "/gcs/b/out/output_dirs" _ _ rfl).1,
   (manifest_order_length loadsDemo ["gs://b/f1.jsonl", "gs://b/f2.jsonl"] (fun _ => "A")
      "/gcs/b/out/output_dirs" _ _ rfl).2⟩

theorem natDigits_no_newline (n : Nat) : '\n' ∉ natDigits n := by
  induction n using natDigits.induct with
  | case1 n h =>
    rw [natDigits, dif_pos h]
    simp only [List.mem_singleton]
    intro hmem
    interval_cases n <;> exact absurd hmem (by decide)
  | case2 n h ih =>
    rw [natDigits, dif_neg h]
    intro hmem
    rw [List.mem_append] at hmem
    rcases hmem with hmem | hmem
    · exact ih hmem
    · simp only [List.mem_singleton] at hmem
      have hlt : n % 10 < 10 := Nat.mod_lt _ (by omega)
      set k := n % 10 with hk
      interval_cases k <;> exact absurd hmem (by decide)

theorem intChars_no_newline (n : Int) : '\n' ∉ intChars n := by
  cases n with
  | ofNat m => exact natDigits_no_newline m
  | negSucc m =>
    intro hmem
    rcases List.mem_cons.mp hmem with hmem | hmem
    · exact absurd hmem (by decide)
    · exact natDigits_no_newline _ hmem

theorem hexDigit_ne_newline {k : Nat} (h : k < 16) : hexDigit k ≠ '\n' := by
  interval_cases k <;> decide

theorem escapeChar_no_newline (c : Char) : '\n' ∉ escapeChar c := by
  unfold escapeChar
  split_ifs with h1 h2 h3 h4 h5 h6 h7 h8
  · decide
  · decide
  · decide
  · decide
  · decide
  · decide
  · decide
  · intro hmem
    simp only [hex4, List.mem_cons, List.not_mem_nil, or_false] at hmem
    rcases hmem with h | h | h | h | h | h
    · exact absurd h (by decide)
    · exact absurd h (by decide)
    · exact hexDigit_ne_newline (Nat.mod_lt _ (by omega)) h.symm
    · exact hexDigit_ne_newline (Nat.mod_lt _ (by omega)) h.symm
    · exact hexDigit_ne_newline (Nat.mod_lt _ (by omega)) h.symm
    · exact hexDigit_ne_newline (Nat.mod_lt _ (by omega)) h.symm
  · simp only [List.mem_singleton]
    intro hmem
    exact h3 hmem.symm

theorem escapeStr_no_newline (s : String) : '\n' ∉ (s.data.map escapeChar).flatten := by
  intro hmem
  rw [List.mem_flatten] at hmem
  obtain ⟨l, hl, hc⟩ := hmem
  rw [List.mem_map] at hl
  obtain ⟨c, _, rfl⟩ := hl
  exact escapeChar_no_newline c hc

theorem dumpsChars_no_newline (j : Json) : '\n' ∉ dumpsChars j := by
  refine dumpsChars.induct (fun j => '\n' ∉ dumpsChars j) (fun f => '\n' ∉ dumpsObj f)
    (fun k v => '\n' ∉ dumpsKV k v) (fun l => '\n' ∉ dumpsList l)
    ?_ ?_ ?_ ?_ ?_ ?_ ?_ ?_ ?_ ?_ ?_ ?_ ?_ ?_ j
  · simp [dumpsChars]
  · simp [dumpsChars]
  · simp [dumpsChars]
  · intro n
    simp only [dumpsChars]
    exact intChars_no_newline n
  · intro s hmem
    simp only [dumpsChars] at hmem
    rcases List.mem_cons.mp hmem with h | hmem
    · exact absurd h (by decide)
    rcases List.mem_append.mp hmem with h | h
    · exact escapeStr_no_newline s h
    · exact absurd h (by decide)
  · intro items ih hmem
    simp only [dumpsChars] at hmem
    rcases List.mem_cons.mp hmem with h | hmem
    · exact absurd h (by decide)
    rcases List.mem_append.mp hmem with h | h
    · exact ih h
    · exact absurd h (by decide)
  · intro fields ih hmem
    simp only [dumpsChars] at hmem
    rcases List.mem_cons.mp hmem with h | hmem
    · exact absurd h (by decide)
    rcases List.mem_append.mp hmem with h | h
    · exact ih h
    · exact absurd h (by decide)
  · simp [dumpsObj]
  · intro k v ih
    simpa only [dumpsObj] using ih
  · intro k v rest hne ihkv ihrest hmem
    rw [show dumpsObj ((k, v) :: rest) = dumpsKV k v ++ ',' :: ' ' :: dumpsObj rest by
      cases rest with
      | nil => exact absurd rfl hne
      | cons p ps => simp [dumpsObj]] at hmem
    rcases List.mem_append.mp hmem with h | hmem
    · exact ihkv h
    rcases List.mem_cons.mp hmem with h | hmem
    · exact absurd h (by decide)
    rcases List.mem_cons.mp hmem with h | h
    · exact absurd h (by decide)
    · exact ihrest h
  · intro k v ih hmem
    simp only [dumpsKV] at hmem
    rcases List.mem_cons.mp hmem with h | hmem
    · exact absurd h (by decide)
    rcases List.mem_append.mp hmem with h | hmem
    · exact escapeStr_no_newline k h
    rcases List.mem_cons.mp hmem with h | hmem
    · exact absurd h (by decide)
    rcases List.mem_cons.mp hmem with h | hmem
    · exact absurd h (by decide)
    rcases List.mem_cons.mp hmem with h | h
    · exact absurd h (by decide)
    · exact ih h
  · simp [dumpsList]
  · intro j' ih
    simpa only [dumpsList] using ih
  · intro j' rest hne ihj ihrest hmem
    rw [show dumpsList (j' :: rest) = dumpsChars j' ++ ',' :: ' ' :: dumpsList rest by
      cases rest with
      | nil => exact absurd rfl hne
      | cons p ps => simp [dumpsList]] at hmem
    rcases List.mem_append.mp hmem with h | hmem
    · exact ihj h
    rcases List.mem_cons.mp hmem with h | hmem
    · exact absurd h (by decide)
    rcases List.mem_cons.mp hmem with h | h
    · exact absurd h (by decide)
    · exact ihrest h

theorem splitLinesChars_cons_ne {c : Char} (hc : c ≠ '\n') (rest : List Char) :
    splitLinesChars (c :: rest) =
      match splitLinesChars rest with
      | [] => [[c]]
      | l :: ls => (c :: l) :: ls := by
  rw [splitLinesChars.eq_def]
  simp [hc]

theorem splitLinesChars_append_newline :
    ∀ {p : List Char}, '\n' ∉ p → ∀ rest : List Char,
      splitLinesChars (p ++ '\n' :: rest) = p :: splitLinesChars rest := by
  intro p
  induction p with
  | nil =>
    intro _ rest
    simp [splitLinesChars]
  | cons c p' ih =>
    intro h rest
    have hc : c ≠ '\n' := fun heq => h (by simp [heq])
    have h' : '\n' ∉ p' := fun hm => h (by simp [hm])
    rw [List.cons_append, splitLinesChars_cons_ne hc, ih h' rest]

theorem splitLinesChars_flatten :
    ∀ {ps : List (List Char)}, (∀ p ∈ ps, '\n' ∉ p) →
      splitLinesChars ((ps.map fun p => p ++ ['\n']).flatten) = ps := by
  intro ps
  induction ps with
  | nil => intro _; rfl
  | cons p rest ih =>
    intro h
    simp only [List.map_cons, List.flatten_cons]
    rw [show p ++ ['\n'] ++ ((rest.map fun p => p ++ ['\n']).flatten) =
        p ++ '\n' :: ((rest.map fun p => p ++ ['\n']).flatten) by simp]
    rw [splitLinesChars_append_newline (h p (by simp)) _,
      ih fun q hq => h q (by simp [hq])]

theorem foldl_append_data :
    ∀ (l : List String) (acc : String),
      (l.foldl (fun r s => r ++ s) acc).data = acc.data ++ (l.map String.data).flatten := by
  intro l
  induction l with
  | nil => intro acc; simp
  | cons s rest ih =>
    intro acc
    simp only [List.foldl_cons, List.map_cons, List.flatten_cons, ih,
      String.data_append, List.append_assoc]

theorem fileContent_data (rs : List Json) :
    (fileContent rs).data = ((rs.map dumpsChars).map fun p => p ++ ['\n']).flatten := by
  unfold fileContent String.join
  rw [foldl_append_data]
  simp only [List.map_map, List.nil_append, String.data]
  congr 1

theorem pySplitlines_fileContent (rs : List Json) :
    pySplitlines (fileContent rs) = rs.map dumps := by
  unfold pySplitlines
  rw [fileContent_data, splitLinesChars_flatten]
  · rw [List.map_map]
    rfl
  · intro p hp
    rw [List.mem_map] at hp
    obtain ⟨r, _, rfl⟩ := hp
    exact dumpsChars_no_newline r

/-- C9 (confirmed): the transcoded body is exactly the normalized records
serialized one after another, each followed by exactly one `'\n'`:
splitting the written body on line terminators returns precisely the
serialized records in order (each serialization contains no newline, so
the output is one JSON object per line); object fields are serialized in
the record's own (insertion) order; and printable characters other than
`"` and `\` — in particular all non-ASCII characters — are emitted
literally, unescaped. -/
theorem serialization_format (loads : String → Except String Json)
    (uri out text : String) (rs : List Json)
    (h : fileRecords loads text = .ok rs) :
    (preprocess_file loads uri out text).1 =
      [(derivedOutputPath out uri, fileContent rs)] ∧
    pySplitlines (fileContent rs) = rs.map dumps ∧
    (∀ r ∈ rs, '\n' ∉ (dumps r).data) ∧
    (∀ c : Char, 32 ≤ c.toNat → c ≠ '"' → c ≠ '\\' → escapeChar c = [c]) ∧
    (∀ f : List (String × Json),
      dumpsChars (Json.obj f) = '\x7b' :: dumpsObj f ++ ['\x7d']) := by
  refine ⟨?_, pySplitlines_fileContent rs, ?_, ?_, ?_⟩
  · by_cases h0 : rs = []
    · subst h0
      rw [preprocess_zero_records h]
    · rw [preprocess_of_records h h0]
  · intro r _
    exact dumpsChars_no_newline r
  · intro c hge hq hbs
    have h1 : c ≠ '\n' := by
      intro he; subst he; exact absurd hge (by decide)
    have h2 : c ≠ '\t' := by
      intro he; subst he; exact absurd hge (by decide)
    have h3 : c ≠ '\r' := by
      intro he; subst he; exact absurd hge (by decide)
    have h4 : c.toNat ≠ 8 := by omega
    have h5 : c.toNat ≠ 12 := by omega
    have h6 : ¬ c.toNat < 32 := by omega
    simp [escapeChar, hq, hbs, h1, h2, h3, h4, h5, h6]
  · intro f
    simp [dumpsChars]

/-- C9 witness. -/
theorem serialization_format_w :
    fileRecords loadsDemo "A" =
      .ok [Json.obj [("input_text", Json.str "hello"), ("prompt", Json.str "hello")]] ∧
    ((preprocess_file loadsDemo "gs://bucket/data.jsonl" "/gcs/bucket/out/output_dirs"
        "A").1 =
      [(derivedOutputPath "/gcs/bucket/out/output_dirs" "gs://bucket/data.jsonl",
        fileContent
          [Json.obj [("input_text", Json.str "hello"), ("prompt", Json.str "hello")]])] ∧
    pySplitlines (fileContent
        [Json.obj [("input_text", Json.str "hello"), ("prompt", Json.str "hello")]]) =
      [Json.obj [("input_text", Json.str "hello"), ("prompt", Json.str "hello")]].map
        dumps ∧
    (∀ r ∈ [Json.obj [("input_text", Json.str "hello"), ("prompt", Json.str "hello")]],
      '\n' ∉ (dumps r).data) ∧
    (∀ c : Char, 32 ≤ c.toNat → c ≠ '"' → c ≠ '\\' → escapeChar c = [c]) ∧
    (∀ f : List (String × Json),
      dumpsChars (Json.obj f) = '\x7b' :: dumpsObj f ++ ['\x7d'])) :=
  ⟨rfl,
   serialization_format loadsDemo "gs://bucket/data.jsonl" "/gcs/bucket/out/output_dirs"
     "A" [Json.obj [("input_text", Json.str "hello"), ("prompt", Json.str "hello")]] rfl⟩
